import Mathlib

/-!
Verification development for the kurl Firefox add-on (background API layer and
shared helpers).  The JavaScript source in `src/JS/background.js` and the
helpers module (`src/unnamed/part_000`, an IIFE assigning `window.Helpers`)
is shallowly embedded here: JS strings are modelled as Lean `String`
(manipulated through their underlying `List Char`), the browser's WHATWG
`new URL` constructor is modelled by an executable parser `parseURLChars`
covering the `http(s)://host/path?query` fragment the add-on works with
(inputs outside that fragment are parse failures), `fetch` and
`browser.permissions` are modelled as explicit oracles, and thrown JS
exceptions are modelled with `Except String`.
-/

deriving instance DecidableEq for Except

namespace Kurl

/-! ## JS string primitives (on the underlying character lists) -/

/-- Model of the JS `\s` character class restricted to the ASCII range
(space, tab, line feed, carriage return, vertical tab, form feed). -/
def isJsWS (c : Char) : Bool :=
  c == ' ' || c == '\t' || c == '\n' || c == '\r' || c.toNat == 11 || c.toNat == 12

/-- Model of JS `String.prototype.toLowerCase` on one character (ASCII
letters; other characters are fixed). -/
def lcChar (c : Char) : Char :=
  if 65 ≤ c.toNat ∧ c.toNat ≤ 90 then Char.ofNat (c.toNat + 32) else c

/-- Lowercasing of a character list. -/
def lcL (l : List Char) : List Char := l.map lcChar

/-- Model of JS `String.prototype.trim` (remove leading and trailing
whitespace). -/
def trimWS (l : List Char) : List Char :=
  ((l.dropWhile isJsWS).reverse.dropWhile isJsWS).reverse

/-- Model of JS `.replace(/\s+/g, "")`: remove every whitespace character. -/
def removeWS (l : List Char) : List Char := l.filter (fun c => !isJsWS c)

/-- Model of JS `.replace(/\/+$/, "")`: remove every trailing slash. -/
def stripTrailSlash (l : List Char) : List Char :=
  (l.reverse.dropWhile (· == '/')).reverse

/-- Split a list at the first occurrence of `sep`, returning the parts
before and after it (`none` when `sep` does not occur). -/
def breakOnSep (sep : List Char) : List Char → Option (List Char × List Char)
  | [] => if sep.isEmpty then some ([], []) else none
  | c :: cs =>
    if sep.isPrefixOf (c :: cs) then some ([], (c :: cs).drop sep.length)
    else
      match breakOnSep sep cs with
      | some (a, b) => some (c :: a, b)
      | none => none

/-- Model of JS `String.prototype.split` with a one-character separator. -/
def splitOnChar (sep : Char) : List Char → List (List Char)
  | [] => [[]]
  | c :: cs =>
    if c == sep then [] :: splitOnChar sep cs
    else
      match splitOnChar sep cs with
      | s :: ss => (c :: s) :: ss
      | [] => [[c]]

/-- Split one `key=value` piece of a query string at the first `=`
(`key` alone yields an empty value, as `URLSearchParams` does). -/
def splitKV (piece : List Char) : List Char × List Char :=
  (piece.takeWhile (fun c => !(c == '=')), (piece.dropWhile (fun c => !(c == '='))).drop 1)

/-- Parse the query/fragment tail of a URL (everything after the path) into
the key/value pairs of `searchParams`.  Percent-decoding is not modelled. -/
def parseQuery (qf : List Char) : List (List Char × List Char) :=
  match qf with
  | '?' :: rest => (splitOnChar '&' (rest.takeWhile (fun c => !(c == '#')))).map splitKV
  | _ => []

/-! ## Model of the WHATWG `new URL` constructor (http/https fragment) -/

/-- The components of a parsed absolute URL that the add-on reads:
`scheme`, lowercased `host`, `pathname` and the `searchParams` pairs. -/
structure URLMC where
  scheme : List Char
  host : List Char
  pathname : List Char
  search : List (List Char × List Char)
deriving DecidableEq

/-- `URL.origin` (scheme `://` host; the model does not carry ports). -/
def URLMC.origin (m : URLMC) : List Char :=
  m.scheme ++ (':' :: '/' :: '/' :: []) ++ m.host

/-- Model of `new URL(s)` for absolute `http(s)` URLs: `none` models a
thrown `TypeError`.  The scheme is matched case-insensitively and the host
is lowercased, as the platform does; URLs with ports, userinfo or non-http
schemes are outside the modelled fragment and fail to parse. -/
def parseURLChars (l : List Char) : Option URLMC :=
  match breakOnSep (':' :: '/' :: '/' :: []) l with
  | none => none
  | some (schRaw, rest) =>
    let sch := lcL schRaw
    if sch = "http".toList ∨ sch = "https".toList then
      let hostRaw := rest.takeWhile (fun c => !(c == '/' || c == '?' || c == '#'))
      let rest2 := rest.drop hostRaw.length
      if hostRaw.isEmpty then none
      else if hostRaw.any (· == ':') then none
      else
        let host := lcL hostRaw
        match rest2 with
        | [] => some ⟨sch, host, '/' :: [], []⟩
        | c :: _ =>
          if c == '/' then
            let path := rest2.takeWhile (fun c => !(c == '?' || c == '#'))
            some ⟨sch, host, path, parseQuery (rest2.drop path.length)⟩
          else some ⟨sch, host, '/' :: [], parseQuery rest2⟩
    else none

/-! ## JSON model

The YOURLS API responses are JSON objects of which the add-on reads a fixed
set of fields.  The parsed body is modelled as `Option YJson`:
`none` models `null` (JSON parse failure in `parseMaybeJson`, or a body that
is not an object).  `Option` fields model absent (`undefined`) properties. -/

/-- A nested object carrying a `shorturl` field (`json.url` / `json.link`). -/
structure UrlObj where
  shorturl : Option String := none
deriving DecidableEq

/-- The `stats` sub-object read by `apiCheck` (`json.stats?.total_links`). -/
structure StatsObj where
  total_links : Option Int := none
deriving DecidableEq

/-- The JSON response fields read anywhere in `background.js`. -/
structure YJson where
  message : Option String := none
  status : Option String := none
  statusCode : Option Int := none
  shorturl : Option String := none
  keyword : Option String := none
  error : Option String := none
  url : Option UrlObj := none
  link : Option UrlObj := none
  total_links : Option Int := none
  stats : Option StatsObj := none
deriving DecidableEq

/-- JS truthiness of a possibly-absent string: `undefined` and `""` are
falsy, every other string is truthy (kept as the value). -/
def jsTruthyStr (o : Option String) : Option String :=
  match o with
  | some s => if s = "" then none else some s
  | none => none

/-- JS `x || ""` on a possibly-absent string. -/
def jsOrEmpty (o : Option String) : String := (jsTruthyStr o).getD ""

/-- JS truthiness of a possibly-absent string given as a character list
(`null` and `""` are falsy). -/
def jsTruthyL (o : Option (List Char)) : Option (List Char) :=
  match o with
  | some s => if s.isEmpty then none else some s
  | none => none

/-! ## Regex models

The source uses four regular expressions; each is modelled by an executable
matcher with JS semantics (leftmost match, greedy `\S+` with backtracking,
`.` not matching line terminators, `/i` case-insensitivity). -/

/-- Case-insensitive prefix test: does `pat` (given lowercase) start the
lowercasing of `l`? -/
def ciPrefix (pat l : List Char) : Bool := pat.isPrefixOf (lcL l)

/-- Case-insensitive substring test, modelling `/pat/i.test(s)` for a
pattern without metacharacters (`pat` given lowercase). -/
def ciContains (pat : List Char) : List Char → Bool
  | [] => pat.isEmpty
  | c :: cs => ciPrefix pat (c :: cs) || ciContains pat cs

/-- `/already exists/i.test(s)` (background.js line 104). -/
def alreadyExistsTest (s : String) : Bool :=
  ciContains "already exists".toList s.toList

/-- Does `b` occur in `l` after only non-line-terminator characters?  This
is the `.*b` part of a `/a.*b/i` regex (JS `.` matches anything except
`\n`, `\r`, U+2028, U+2029). -/
def dotStarThen (b : List Char) : List Char → Bool
  | [] => b.isEmpty
  | c :: cs =>
    ciPrefix b (c :: cs) ||
      (!(c == '\n' || c == '\r' || c.toNat == 8232 || c.toNat == 8233) && dotStarThen b cs)

/-- Model of `/a.*b/i.test(s)` for literal fragments `a`, `b`
(given lowercase). -/
def ciDotStarTest (a b : List Char) : List Char → Bool
  | [] => a.isEmpty && b.isEmpty
  | c :: cs => (ciPrefix a (c :: cs) && dotStarThen b ((c :: cs).drop a.length)) ||
      ciDotStarTest a b cs

/-- `/success.*deleted/i.test(m)` (background.js line 141). -/
def successDeletedTest (m : String) : Bool :=
  ciDotStarTest "success".toList "deleted".toList m.toList

/-- `/keyword.*already exists/i.test(m)` (background.js line 269). -/
def keywordExistsTest (m : String) : Bool :=
  ciDotStarTest "keyword".toList "already exists".toList m.toList

/-- Greedy backtracking step for `(https?:\/\/\S+)\)`: the capture consumes
the longest run of non-whitespace characters such that the very next
character is `)`.  `run` is the maximal non-whitespace run; the result is
the number of captured characters. -/
def lastClosingParen (run : List Char) : Option Nat :=
  ((List.range run.length).filter
    (fun k => decide (1 ≤ k) && (run.drop k).take 1 == [')'])).getLast?

/-- Try to match `\(short URL: (https?:\/\/\S+)\)/i` at the start of `l`,
returning the captured group (original characters, not lowercased). -/
def parenMatchAt (l : List Char) : Option (List Char) :=
  if ciPrefix "(short url: ".toList l then
    let rest := l.drop 12
    let schemeLen : Option Nat :=
      if ciPrefix "https://".toList rest then some 8
      else if ciPrefix "http://".toList rest then some 7
      else none
    match schemeLen with
    | none => none
    | some n =>
      let run := (rest.drop n).takeWhile (fun c => !isJsWS c)
      match lastClosingParen run with
      | some k => some (rest.take n ++ run.take k)
      | none => none
  else none

/-- Model of `String(msg).match(/\(short URL: (https?:\/\/\S+)\)/i)`,
returning the first (leftmost) capture (background.js line 106). -/
def parenExtract : List Char → Option (List Char)
  | [] => none
  | c :: cs =>
    match parenMatchAt (c :: cs) with
    | some cap => some cap
    | none => parenExtract cs

/-! ## The Helpers module (`src/unnamed/part_000`, `window.Helpers`) -/

/-- `Helpers.sanitizeBaseUrl`: trim, remove all whitespace and trailing
slashes, parse as a URL; on failure return `""`; on success return
`origin + pathname` with trailing slashes stripped from the path. -/
def sanitizeBaseUrl (u : String) : String :=
  if u.toList.isEmpty then ""
  else
    match parseURLChars (stripTrailSlash (removeWS (trimWS u.toList))) with
    | none => ""
    | some m => String.mk (m.origin ++ stripTrailSlash m.pathname)

/-- `Helpers.extractShort`: extract the short URL from the response JSON,
trying `json.shorturl`, `json.url?.shorturl`, `json.link?.shorturl`, and
finally synthesising `base + "/" + json.keyword` (each field is used only
when truthy). -/
def extractShort (json : Option YJson) (base : String) : Option String :=
  match json with
  | none => none
  | some j =>
    match jsTruthyStr j.shorturl with
    | some s => some s
    | none =>
      match j.url.bind (fun u => jsTruthyStr u.shorturl) with
      | some s => some s
      | none =>
        match j.link.bind (fun u => jsTruthyStr u.shorturl) with
        | some s => some s
        | none =>
          match jsTruthyStr j.keyword with
          | some k => some (String.mk (stripTrailSlash base.toList) ++ "/" ++ k)
          | none => none

/-- `pathname.replace(/\/+$/, "").split("/").pop() || ""` from
`Helpers.extractKeyword`. -/
def lastSegmentCode (p : List Char) : List Char :=
  (splitOnChar '/' (stripTrailSlash p)).getLast?.getD []

/-- `Helpers.extractKeyword`: resolve a candidate string (full short URL or
bare keyword) to the keyword.  The candidate is trimmed; if it parses as a
URL whose origin equals the base URL's origin the last path segment is
returned, otherwise the trimmed candidate itself (a parse failure of
either URL is caught by the source's `try`/`catch` and also yields the
trimmed candidate). -/
def extractKeyword (base s : String) : String :=
  if s.toList.isEmpty then ""
  else
    let t := String.mk (trimWS s.toList)
    match parseURLChars t.toList with
    | none => t
    | some u =>
      if base = "" then t
      else
        match parseURLChars base.toList with
        | none => t
        | some b => if u.origin = b.origin then String.mk (lastSegmentCode u.pathname) else t

/-! ## Localized message catalogue

Modelled from the spec: the `_locales` message files of the repository are
not under `src/`; `browser.i18n.getMessage(key)` is modelled as returning
the key itself, which keeps distinct messages distinct. -/

def errorNoSettings : String := "errorNoSettings"

def errorStatsFailed : String := "errorStatsFailed"

def popupErrorStatsNotFound : String := "popupErrorStatsNotFound"

def errorKeywordExists : String := "errorKeywordExists"

def errorEnterKeywordToDelete : String := "errorEnterKeywordToDelete"

def optionsStatusConnFailed : String := "optionsStatusConnFailed"

/-- Model of the `TypeError` message thrown by `new URL(input)` on invalid
input (platform behaviour; the exact wording is engine-specific, only its
distinctness from the catalogue messages matters). -/
def urlCtorErrorMsg (input : String) : String :=
  "URL constructor: " ++ input ++ " is not a valid URL"

/-! ## The HTTP layer (`fetch` Response and `yourlsFetch`) -/

/-- A `fetch` `Response` is modelled by its status code; `res.ok` is the
platform-defined predicate `200 <= status <= 299`. -/
structure HttpRes where
  status : Nat
deriving DecidableEq

/-- `Response.ok`. -/
def HttpRes.ok (r : HttpRes) : Bool := 200 ≤ r.status && r.status ≤ 299

/-- One POST issued by `yourlsFetch` (endpoint plus form body). -/
structure FetchCall where
  endpoint : String
  body : List (String × String)
deriving DecidableEq

/-- `yourlsFetch(baseUrl, payload)` (background.js lines 333-353).  The
permission state, the transport and JSON parsing are oracles:
`perms` models `browser.permissions.contains` keyed by the queried origin
pattern, `net` models `fetch` + `res.text()` (an `Except.error` models a
network-level rejection), `jparse` models `Helpers.parseMaybeJson`.  The
second component lists the network requests actually issued, so that
"no network call" is expressible.  A thrown exception is `Except.error`. -/
def yourlsFetch (perms : String → Bool) (net : FetchCall → Except String (HttpRes × String))
    (jparse : String → Option YJson) (baseUrl : String) (payload : List (String × String)) :
    Except String (HttpRes × String × Option YJson) × List FetchCall :=
  match parseURLChars baseUrl.toList with
  | none => (.error (urlCtorErrorMsg baseUrl), [])
  | some m =>
    if !(perms (String.mk m.origin ++ "/*")) then
      (.error "Host permission was not granted.", [])
    else
      let call : FetchCall := ⟨baseUrl ++ "/yourls-api.php", payload⟩
      match net call with
      | .error e => (.error e, [call])
      | .ok (res, text) => (.ok (res, text, jparse text), [call])

/-! ## Response normalization, per operation (background.js) -/

/-- Result of `apiShorten`: `{ok: true, shortUrl, already}` on success,
a thrown error otherwise. -/
structure ShortenOk where
  shortUrl : Option String
  already : Bool
deriving DecidableEq

/-- The response-handling part of `apiShorten` (background.js lines
101-124): "already exists" recovery, then generic extraction, then the
failure branches. -/
def shortenNormalize (base : String) (res : HttpRes) (text : String) (json : Option YJson) :
    Except String ShortenOk :=
  let alreadyBranch :=
    match json with
    | some j => alreadyExistsTest (jsOrEmpty j.message)
    | none => false
  if alreadyBranch then
    let msg := match json with
      | some j => j.message.getD "undefined"
      | none => "undefined"
    let existing : Option String :=
      match parenExtract msg.toList with
      | some cap => some (String.mk cap)
      | none => extractShort json base
    .ok ⟨existing, true⟩
  else
    let short := extractShort json base
    if res.ok && json.isSome && short.isSome then
      .ok ⟨short, false⟩
    else
      match json with
      | some j =>
        if j.status = some "fail" && (jsTruthyStr j.message).isSome then
          .error (j.message.getD "")
        else
          .error ("HTTP " ++ toString res.status ++
            (if text = "" then "" else ": " ++ String.mk (text.toList.take 200)))
      | none =>
        .error ("HTTP " ++ toString res.status ++
          (if text = "" then "" else ": " ++ String.mk (text.toList.take 200)))

/-- `isSuccess` from `apiDelete` (background.js line 141). -/
def deleteIsSuccess (json : Option YJson) : Bool :=
  match json with
  | none => false
  | some j =>
    j.status = some "success" || successDeletedTest (jsOrEmpty j.message) ||
      j.statusCode = some 200

/-- The error detail `json?.message || json?.error || ""` (line 148). -/
def deleteErrDetails (json : Option YJson) : String :=
  match json with
  | none => ""
  | some j => ((jsTruthyStr j.message).orElse (fun _ => jsTruthyStr j.error)).getD ""

/-- The `Delete failed: ...` message of background.js line 149 (note the
template's literal space before the optional `- details`). -/
def deleteFailMsg (res : HttpRes) (json : Option YJson) : String :=
  "Delete failed: HTTP " ++ toString res.status ++ " " ++
    (if deleteErrDetails json = "" then "" else "- " ++ deleteErrDetails json)

/-- The response-handling part of `apiDelete` (background.js lines
139-149). -/
def deleteNormalize (res : HttpRes) (json : Option YJson) : Except String Unit :=
  if res.ok && deleteIsSuccess json then .ok () else .error (deleteFailMsg res json)

/-- The response-handling part of `apiStats` (background.js lines 76-82):
404 is "not found", other non-ok statuses carry a 100-character body
snippet, an ok response returns the parsed JSON as-is. -/
def statsNormalize (res : HttpRes) (text : String) (json : Option YJson) :
    Except String (Option YJson) :=
  if !res.ok then
    if res.status = 404 then .error popupErrorStatsNotFound
    else
      .error ("HTTP " ++ toString res.status ++
        (if text = "" then "" else ": " ++ String.mk (text.toList.take 100)))
  else .ok json

/-! ## API pipelines (settings → fetch → normalize)

`Helpers.getSettings` reads browser storage; the stored values are passed
in explicitly as a `Settings` record.  Each pipeline returns the operation
outcome (thrown exceptions as `Except.error`) together with the list of
network requests issued. -/

/-- The three persisted settings. -/
structure Settings where
  yourlsUrl : String
  apiSignature : String
  autoCopy : Bool := true
deriving DecidableEq

/-- `apiDbStats` (background.js lines 54-63). -/
def apiDbStatsM (perms : String → Bool) (net : FetchCall → Except String (HttpRes × String))
    (jparse : String → Option YJson) (st : Settings) : Except String YJson × List FetchCall :=
  let base := sanitizeBaseUrl st.yourlsUrl
  match yourlsFetch perms net jparse base
      [("action", "stats"), ("format", "json"), ("signature", st.apiSignature)] with
  | (.error e, calls) => (.error e, calls)
  | (.ok (res, _, json), calls) =>
    match json with
    | some j => if res.ok then (.ok j, calls) else (.error errorStatsFailed, calls)
    | none => (.error errorStatsFailed, calls)

/-- `apiStats` (background.js lines 70-83). -/
def apiStatsM (perms : String → Bool) (net : FetchCall → Except String (HttpRes × String))
    (jparse : String → Option YJson) (st : Settings) (shortOrKeyword : String) :
    Except String (Option YJson) × List FetchCall :=
  let base := sanitizeBaseUrl st.yourlsUrl
  let kw := extractKeyword base shortOrKeyword
  match yourlsFetch perms net jparse base
      [("action", "url-stats"), ("format", "json"), ("signature", st.apiSignature),
       ("shorturl", kw)] with
  | (.error e, calls) => (.error e, calls)
  | (.ok (res, text, json), calls) => (statsNormalize res text json, calls)

/-- `apiShorten` (background.js lines 92-125), including its
no-settings guard. -/
def apiShortenM (perms : String → Bool) (net : FetchCall → Except String (HttpRes × String))
    (jparse : String → Option YJson) (st : Settings) (longUrl keyword title : String) :
    Except String ShortenOk × List FetchCall :=
  let base := sanitizeBaseUrl st.yourlsUrl
  if base = "" ∨ st.apiSignature = "" then (.error errorNoSettings, [])
  else
    let payload := [("action", "shorturl"), ("format", "json"),
        ("signature", st.apiSignature), ("url", longUrl)] ++
      (if keyword = "" then [] else [("keyword", keyword)]) ++
      (if title = "" then [] else [("title", title)])
    match yourlsFetch perms net jparse base payload with
    | (.error e, calls) => (.error e, calls)
    | (.ok (res, text, json), calls) => (shortenNormalize base res text json, calls)

/-- `apiDelete` (background.js lines 132-150), including its
empty-keyword guard. -/
def apiDeleteM (perms : String → Bool) (net : FetchCall → Except String (HttpRes × String))
    (jparse : String → Option YJson) (st : Settings) (shortOrKeyword : String) :
    Except String Unit × List FetchCall :=
  let base := sanitizeBaseUrl st.yourlsUrl
  let keyword := extractKeyword base shortOrKeyword
  if keyword = "" then (.error errorEnterKeywordToDelete, [])
  else
    match yourlsFetch perms net jparse base
        [("action", "delete"), ("format", "json"), ("signature", st.apiSignature),
         ("shorturl", keyword)] with
    | (.error e, calls) => (.error e, calls)
    | (.ok (res, _, json), calls) => (deleteNormalize res json, calls)

/-- Outcome of `apiCheck`: `{ok: true, total}` or `{ok: false, reason}`
(the unknown-count sentinel `"?"` is modelled as `none`). -/
inductive CheckOut where
  | pass (total : Option Int)
  | fail (reason : String)
deriving DecidableEq

/-- `json.total_links ?? json.stats?.total_links ?? "?"` (line 165). -/
def checkTotal (j : YJson) : Option Int :=
  match j.total_links with
  | some n => some n
  | none =>
    match j.stats with
    | some s => s.total_links
    | none => none

/-- `apiCheck` (background.js lines 156-172): the no-settings guard, the
`try`/`catch` capturing network exceptions, and the connectivity failure
fallback.  `apiCheck` itself never throws, so it returns `CheckOut`
directly rather than `Except`. -/
def apiCheckM (perms : String → Bool) (net : FetchCall → Except String (HttpRes × String))
    (jparse : String → Option YJson) (st : Settings) : CheckOut × List FetchCall :=
  let base := sanitizeBaseUrl st.yourlsUrl
  if base = "" ∨ st.apiSignature = "" then (.fail errorNoSettings, [])
  else
    match yourlsFetch perms net jparse base
        [("action", "stats"), ("format", "json"), ("signature", st.apiSignature)] with
    | (.error e, calls) => (.fail e, calls)
    | (.ok (res, _, json), calls) =>
      match json with
      | some j => if res.ok then (.pass (checkTotal j), calls) else (.fail optionsStatusConnFailed, calls)
      | none => (.fail optionsStatusConnFailed, calls)

/-! ## The Redirect Cleaner (`REDIRECT_PATTERNS` and the cleaning loop of
`getUrlForAction`, background.js lines 17-43 and 193-209) -/

/-- One entry of `REDIRECT_PATTERNS` (source field names `host_prefix`,
`path`, `param`, `prefix_to_strip`; the first and last are renamed here
for Lean). -/
structure RedirectPattern where
  hostPrefix : String
  path : String
  param : String
  prefixToStrip : Option String := none
deriving DecidableEq

/-- The static pattern table (background.js lines 17-43). -/
def REDIRECT_PATTERNS : List RedirectPattern :=
  [ { hostPrefix := "www.google.", path := "/url", param := "url" },
    { hostPrefix := "www.bing.com", path := "/ck/a", param := "u", prefixToStrip := some "a1" },
    { hostPrefix := "duckduckgo.com", path := "/l/", param := "uddg" },
    { hostPrefix := "www.youtube.com", path := "/redirect", param := "q" } ]

/-- `urlObject.searchParams.get(param)`: first value for the key, `none`
when absent. -/
def getParamC (u : URLMC) (key : String) : Option (List Char) :=
  (u.search.find? (fun kv => kv.1 = key.toList)).map (fun kv => kv.2)

/-- `hostname.startsWith(host_prefix) && pathname.startsWith(path)`. -/
def patMatches (u : URLMC) (p : RedirectPattern) : Bool :=
  p.hostPrefix.toList.isPrefixOf u.host && p.path.toList.isPrefixOf u.pathname

/-- The optional `prefix_to_strip` removal (lines 199-201; the pattern
field is also tested for JS truthiness). -/
def applyStrip (p : RedirectPattern) (v : List Char) : List Char :=
  match p.prefixToStrip with
  | some pre => if pre ≠ "" ∧ pre.toList.isPrefixOf v then v.drop pre.toList.length else v
  | none => v

/-- The `for (const pattern of REDIRECT_PATTERNS)` loop (lines 195-206):
on a prefix match, a *truthy* parameter value is stripped and returned
(`break`); a falsy value (absent or empty) lets the loop continue. -/
def cleanLoop (u : URLMC) : List RedirectPattern → Option (List Char)
  | [] => none
  | p :: ps =>
    if patMatches u p then
      match jsTruthyL (getParamC u p.param) with
      | some v => some (applyStrip p v)
      | none => cleanLoop u ps
    else cleanLoop u ps

/-- The whole cleaning step applied to a context-menu link (parse failure
is caught and the original link returned). -/
def cleanRedirectLink (link : String) : String :=
  match parseURLChars link.toList with
  | none => link
  | some u =>
    match cleanLoop u REDIRECT_PATTERNS with
    | some v => String.mk v
    | none => link

/-! ## The Action Router (`browser.runtime.onMessage` listener,
background.js lines 256-274) -/

/-- The uniform envelope returned to the popup. -/
inductive Envelope where
  | shortened (shortUrl : Option String) (already : Bool)
  | deleted
  | checkPass (total : Option Int)
  | statsData (d : Option YJson)
  | dbStatsData (d : YJson)
  | failure (reason : String)
deriving DecidableEq

/-- The message router.  The API operations are effectful, so their
outcomes are passed in (`hCheck` from `apiCheck`, which never throws;
the others as `Except`, `.error` modelling a rejected promise).  The
router dispatches on `msg.type`, wraps stats results in `{ok: true, data}`
envelopes, and converts every exception into a `{ok: false, reason}`
envelope, rewriting a remote "keyword ... already exists" message. -/
def routeMessage (msgType : String) (hCheck : CheckOut)
    (hShorten : Except String ShortenOk) (hStats : Except String (Option YJson))
    (hDelete : Except String Unit) (hDb : Except String YJson) : Envelope :=
  let tryBlock : Except String Envelope :=
    if msgType = "CHECK_CONNECTION" then
      .ok (match hCheck with
        | .pass total => .checkPass total
        | .fail reason => .failure reason)
    else if msgType = "SHORTEN_URL" then hShorten.map (fun r => .shortened r.shortUrl r.already)
    else if msgType = "GET_STATS" then hStats.map (fun d => .statsData d)
    else if msgType = "DELETE_SHORTURL" then hDelete.map (fun _ => .deleted)
    else if msgType = "GET_DB_STATS" then hDb.map (fun d => .dbStatsData d)
    else .ok (.failure "Unknown message type")
  match tryBlock with
  | .ok env => env
  | .error e => if keywordExistsTest e then .failure errorKeywordExists else .failure e

/-! ## Supporting lemmas: characters and lowercasing -/

theorem toNat_ofNat_valid {n : Nat} (h : n < 55296) : (Char.ofNat n).toNat = n := by
  have hv : n.isValidChar := Or.inl h
  rw [Char.ofNat, dif_pos hv]
  rfl

theorem lcChar_of_not_upper {c : Char} (h : ¬(65 ≤ c.toNat ∧ c.toNat ≤ 90)) : lcChar c = c := by
  simp only [lcChar, if_neg h]

theorem lcChar_toNat_upper {c : Char} (h1 : 65 ≤ c.toNat) (h2 : c.toNat ≤ 90) :
    (lcChar c).toNat = c.toNat + 32 := by
  simp only [lcChar, if_pos (And.intro h1 h2)]
  exact toNat_ofNat_valid (by omega)

theorem lcChar_idem (c : Char) : lcChar (lcChar c) = lcChar c := by
  by_cases h : 65 ≤ c.toNat ∧ c.toNat ≤ 90
  · have h32 := lcChar_toNat_upper h.1 h.2
    exact lcChar_of_not_upper (by omega)
  · rw [lcChar_of_not_upper h, lcChar_of_not_upper h]

/-- `lcChar` never produces a character with code point below 97 that was
not already there: lowercasing cannot create slashes, colons, whitespace,
question marks or hashes. -/
theorem lcChar_eq_low {c d : Char} (hd : d.toNat < 97) (h : lcChar c = d) : c = d := by
  by_cases hu : 65 ≤ c.toNat ∧ c.toNat ≤ 90
  · have := lcChar_toNat_upper hu.1 hu.2
    rw [h] at this
    omega
  · rwa [lcChar_of_not_upper hu] at h

theorem lcL_idem (l : List Char) : lcL (lcL l) = lcL l := by
  simp only [lcL, List.map_map]
  exact List.map_congr_left (fun a _ => lcChar_idem a)

theorem isJsWS_eq_false_of_ge {d : Char} (h : 97 ≤ d.toNat) : isJsWS d = false := by
  have hs : ∀ c : Char, c.toNat < 97 → (d == c) = false := by
    intro c hc
    rw [beq_eq_false_iff_ne]
    intro he
    subst he
    omega
  simp only [isJsWS, Bool.or_eq_false_iff]
  refine ⟨⟨⟨⟨⟨hs ' ' (by decide), hs '\t' (by decide)⟩, hs '\n' (by decide)⟩,
    hs '\r' (by decide)⟩, ?_⟩, ?_⟩
  · rw [beq_eq_false_iff_ne]
    omega
  · rw [beq_eq_false_iff_ne]
    omega

theorem isJsWS_lcChar {c : Char} (h : isJsWS c = false) : isJsWS (lcChar c) = false := by
  by_cases hu : 65 ≤ c.toNat ∧ c.toNat ≤ 90
  · exact isJsWS_eq_false_of_ge (by have := lcChar_toNat_upper hu.1 hu.2; omega)
  · rwa [lcChar_of_not_upper hu]

/-! ## Supporting lemmas: trimming, whitespace removal, trailing slashes -/

theorem dropWhile_eq_self_of_forall {p : Char → Bool} {l : List Char}
    (h : ∀ c ∈ l, p c = false) : l.dropWhile p = l := by
  cases l with
  | nil => rfl
  | cons c t =>
    exact List.dropWhile_cons_of_neg (by simp [h c (List.mem_cons_self c t)])

theorem trimWS_eq_self {l : List Char} (h : ∀ c ∈ l, isJsWS c = false) : trimWS l = l := by
  unfold trimWS
  rw [dropWhile_eq_self_of_forall h,
    dropWhile_eq_self_of_forall (fun c hc => h c (List.mem_reverse.mp hc)), List.reverse_reverse]

theorem removeWS_eq_self {l : List Char} (h : ∀ c ∈ l, isJsWS c = false) : removeWS l = l :=
  List.filter_eq_self.mpr (fun c hc => by simp [h c hc])

theorem mem_removeWS_ws {c : Char} {l : List Char} (h : c ∈ removeWS l) : isJsWS c = false := by
  have := (List.mem_filter.mp h).2
  simpa using this

theorem stripTrailSlash_prefix_self (l : List Char) : stripTrailSlash l <+: l := by
  have h := List.dropWhile_suffix (l := l.reverse) (p := (· == '/'))
  have h2 := List.reverse_prefix.mpr h
  simpa using h2

theorem mem_stripTrailSlash {c : Char} {l : List Char} (h : c ∈ stripTrailSlash l) : c ∈ l :=
  (stripTrailSlash_prefix_self l).subset h

theorem stripTrailSlash_getLast? {l : List Char} {x : Char}
    (h : (stripTrailSlash l).getLast? = some x) : (x == '/') = false := by
  unfold stripTrailSlash at h
  rw [List.getLast?_reverse] at h
  have hh := List.head?_dropWhile_not (· == '/') l.reverse
  rw [h] at hh
  exact hh

theorem stripTrailSlash_eq_self {l : List Char} (h : l.getLast? ≠ some '/') :
    stripTrailSlash l = l := by
  unfold stripTrailSlash
  cases hr : l.reverse with
  | nil =>
    have : l = [] := List.reverse_eq_nil_iff.mp hr
    simp [this]
  | cons c t =>
    have hc : c ≠ '/' := by
      intro hc
      apply h
      rw [← List.head?_reverse, hr, hc]
      simp
    rw [List.dropWhile_cons_of_neg (by simp [hc]), ← hr, List.reverse_reverse]

theorem stripTrailSlash_idem (l : List Char) :
    stripTrailSlash (stripTrailSlash l) = stripTrailSlash l := by
  cases h : (stripTrailSlash l).getLast? with
  | none =>
    have : stripTrailSlash l = [] := List.getLast?_eq_none_iff.mp h
    rw [this]
    rfl
  | some x =>
    apply stripTrailSlash_eq_self
    rw [h]
    intro hx
    have := stripTrailSlash_getLast? h
    simp at hx
    simp [hx] at this

theorem stripTrailSlash_decomp (l : List Char) :
    ∃ k, l = stripTrailSlash l ++ List.replicate k '/' := by
  refine ⟨(l.reverse.takeWhile (· == '/')).length, ?_⟩
  conv_lhs => rw [← List.reverse_reverse l,
    ← List.takeWhile_append_dropWhile (p := (· == '/')) (l := l.reverse)]
  rw [List.reverse_append]
  unfold stripTrailSlash
  congr 1
  have hall : ∀ x ∈ l.reverse.takeWhile (· == '/'), x = '/' := by
    intro x hx
    have := List.all_takeWhile (p := (· == '/')) (l := l.reverse)
    rw [List.all_eq_true] at this
    simpa using this x hx
  rw [List.eq_replicate_iff.mpr ⟨List.length_reverse _, fun b hb => hall b (List.mem_reverse.mp hb)⟩]

theorem stripTrailSlash_head? {l : List Char} (h : stripTrailSlash l ≠ []) :
    (stripTrailSlash l).head? = l.head? := by
  obtain ⟨t, ht⟩ := stripTrailSlash_prefix_self l
  cases hs : stripTrailSlash l with
  | nil => exact absurd hs h
  | cons c cs =>
    rw [hs] at ht
    rw [← ht]
    simp

/-! ## Supporting lemmas: `breakOnSep` -/

theorem breakOnSep_eq {sep : List Char} :
    ∀ {l a b : List Char}, breakOnSep sep l = some (a, b) → l = a ++ sep ++ b := by
  intro l
  induction l with
  | nil =>
    intro a b h
    unfold breakOnSep at h
    by_cases hs : sep.isEmpty
    · have : sep = [] := by simpa [List.isEmpty_iff] using hs
      rw [if_pos hs] at h
      cases h
      simp [this]
    · rw [if_neg hs] at h
      cases h
  | cons c cs ih =>
    intro a b h
    unfold breakOnSep at h
    by_cases hp : sep.isPrefixOf (c :: cs)
    · rw [if_pos hp] at h
      cases h
      have hpre : sep <+: c :: cs := List.isPrefixOf_iff_prefix.mp hp
      obtain ⟨t, ht⟩ := hpre
      rw [← ht, List.drop_left]
      simp
    · rw [if_neg hp] at h
      cases hrec : breakOnSep sep cs with
      | none => rw [hrec] at h; cases h
      | some ab =>
        obtain ⟨a', b'⟩ := ab
        rw [hrec] at h
        cases h
        have := ih hrec
        simp [this]

theorem breakOnSep_append {s0 : Char} {st a b : List Char} (ha : ∀ c ∈ a, c ≠ s0) :
    breakOnSep (s0 :: st) (a ++ (s0 :: st) ++ b) = some (a, b) := by
  induction a with
  | nil =>
    simp only [List.nil_append]
    show breakOnSep (s0 :: st) (s0 :: (st ++ b)) = some ([], b)
    unfold breakOnSep
    have hp : (s0 :: st).isPrefixOf (s0 :: (st ++ b)) = true :=
      List.isPrefixOf_iff_prefix.mpr (List.prefix_append (s0 :: st) b)
    rw [if_pos hp]
    simp only [List.length_cons, List.drop_succ_cons]
    rw [List.drop_left]
  | cons c a' ih =>
    have hc : c ≠ s0 := ha c (List.mem_cons_self c a')
    show breakOnSep (s0 :: st) (c :: (a' ++ (s0 :: st) ++ b)) = some (c :: a', b)
    unfold breakOnSep
    have hs0c : (s0 == c) = false := beq_eq_false_iff_ne.mpr (Ne.symm hc)
    have hnp : (s0 :: st).isPrefixOf (c :: (a' ++ (s0 :: st) ++ b)) = false := by
      rw [List.isPrefixOf_cons₂, hs0c, Bool.false_and]
    rw [if_neg (by simp only [hnp]; exact Bool.false_ne_true)]
    rw [ih (fun x hx => ha x (List.mem_cons_of_mem c hx))]


/-! ## Supporting lemmas: the URL parser and `sanitizeBaseUrl` -/

theorem lcHost_facts {hostRaw : List Char} (h1 : hostRaw.isEmpty = false)
    (h2 : hostRaw.any (· == ':') = false)
    (h3 : ∀ c0 ∈ hostRaw, (!(c0 == '/' || c0 == '?' || c0 == '#')) = true ∧ isJsWS c0 = false) :
    lcL hostRaw ≠ [] ∧ lcL (lcL hostRaw) = lcL hostRaw ∧
      (∀ c ∈ lcL hostRaw, c ≠ '/' ∧ c ≠ '?' ∧ c ≠ '#' ∧ c ≠ ':' ∧ isJsWS c = false) := by
  refine ⟨?_, lcL_idem hostRaw, ?_⟩
  · simp only [lcL, ne_eq, List.map_eq_nil_iff]
    exact List.isEmpty_eq_false.mp h1
  · intro c hc
    obtain ⟨c0, hc0, rfl⟩ := List.mem_map.mp hc
    have hpred := (h3 c0 hc0).1
    have hws := (h3 c0 hc0).2
    have hcol : ¬(c0 == ':') = true := (List.any_eq_false.mp h2) c0 hc0
    simp only [Bool.not_eq_eq_eq_not, Bool.not_true, Bool.or_eq_false_iff,
      beq_eq_false_iff_ne, ne_eq] at hpred
    have hcol2 : c0 ≠ ':' := by simpa using hcol
    refine ⟨?_, ?_, ?_, ?_, isJsWS_lcChar hws⟩
    · intro he; exact hpred.1.1 (lcChar_eq_low (by decide) he)
    · intro he; exact hpred.1.2 (lcChar_eq_low (by decide) he)
    · intro he; exact hpred.2 (lcChar_eq_low (by decide) he)
    · intro he; exact hcol2 (lcChar_eq_low (by decide) he)

set_option maxHeartbeats 1000000 in
theorem parseURLChars_inv {l : List Char} {m : URLMC}
    (hl : ∀ c ∈ l, isJsWS c = false) (h : parseURLChars l = some m) :
    (m.scheme = "http".toList ∨ m.scheme = "https".toList) ∧
    m.host ≠ [] ∧
    lcL m.host = m.host ∧
    (∀ c ∈ m.host, c ≠ '/' ∧ c ≠ '?' ∧ c ≠ '#' ∧ c ≠ ':' ∧ isJsWS c = false) ∧
    m.pathname.head? = some '/' ∧
    (∀ c ∈ m.pathname, c ≠ '?' ∧ c ≠ '#' ∧ isJsWS c = false) := by
  unfold parseURLChars at h
  split at h
  · exact absurd h (by simp)
  · rename_i sr schRaw rest heq
    have hrest : ∀ c ∈ rest, c ∈ l := by
      intro c hc
      rw [breakOnSep_eq heq]
      simp [hc]
    simp only at h
    split at h
    case isFalse hsch => exact absurd h (by simp)
    case isTrue hsch =>
    split at h
    case isTrue h1 => exact absurd h (by simp)
    case isFalse h1 =>
    split at h
    case isTrue h2 => exact absurd h (by simp)
    case isFalse h2 =>
    have h1' : (rest.takeWhile (fun c => !(c == '/' || c == '?' || c == '#'))).isEmpty = false := by
      cases hb : (rest.takeWhile (fun c => !(c == '/' || c == '?' || c == '#'))).isEmpty with
      | false => rfl
      | true => exact absurd hb h1
    have h2' : (rest.takeWhile (fun c => !(c == '/' || c == '?' || c == '#'))).any (· == ':') = false := by
      cases hb : (rest.takeWhile (fun c => !(c == '/' || c == '?' || c == '#'))).any (· == ':') with
      | false => rfl
      | true => exact absurd hb h2
    have hhostmem : ∀ c0 ∈ rest.takeWhile (fun c => !(c == '/' || c == '?' || c == '#')),
        (!(c0 == '/' || c0 == '?' || c0 == '#')) = true ∧ isJsWS c0 = false := by
      intro c0 hc0
      refine ⟨?_, hl c0 (hrest c0 ((List.takeWhile_prefix _).subset hc0))⟩
      have := List.all_takeWhile (p := fun c => !(c == '/' || c == '?' || c == '#')) (l := rest)
      rw [List.all_eq_true] at this
      exact this c0 hc0
    have hfacts := lcHost_facts h1' h2' hhostmem
    split at h
    case h_1 =>
      injection h with h'
      subst h'
      refine ⟨hsch, hfacts.1, hfacts.2.1, hfacts.2.2, rfl, ?_⟩
      intro c hc
      simp only [List.mem_singleton] at hc
      subst hc
      exact ⟨by decide, by decide, by decide⟩
    case h_2 c tail hr2 =>
      split at h
      case isTrue hslash =>
        injection h with h'
        subst h'
        have hc : c = '/' := by simpa using hslash
        have hmemrest2 : ∀ x ∈ c :: tail, x ∈ l := by
          intro x hx
          apply hrest
          apply List.mem_of_mem_drop (n := (rest.takeWhile (fun c => !(c == '/' || c == '?' || c == '#'))).length)
          rw [hr2]
          exact hx
        refine ⟨hsch, hfacts.1, hfacts.2.1, hfacts.2.2, ?_, ?_⟩
        · dsimp only
          rw [hr2, List.takeWhile_cons_of_pos (by simp [hc])]
          simp [hc]
        · intro x hx
          dsimp only at hx
          rw [hr2] at hx
          have hxmem : x ∈ c :: tail := (List.takeWhile_prefix _).subset hx
          have hpred := List.all_eq_true.mp
            (List.all_takeWhile (p := fun c => !(c == '?' || c == '#')) (l := c :: tail)) x hx
          simp only [Bool.not_eq_eq_eq_not, Bool.not_true, Bool.or_eq_false_iff,
            beq_eq_false_iff_ne, ne_eq] at hpred
          exact ⟨hpred.1, hpred.2, hl x (hmemrest2 x hxmem)⟩
      case isFalse hslash =>
        injection h with h'
        subst h'
        refine ⟨hsch, hfacts.1, hfacts.2.1, hfacts.2.2, rfl, ?_⟩
        intro x hx
        simp only [List.mem_singleton] at hx
        subst hx
        exact ⟨by decide, by decide, by decide⟩

theorem takeWhile_eq_self_of_forall {p : Char → Bool} {l : List Char}
    (h : ∀ c ∈ l, p c = true) : l.takeWhile p = l := by
  induction l with
  | nil => rfl
  | cons c t ih =>
    rw [List.takeWhile_cons_of_pos (h c (List.mem_cons_self c t))]
    rw [ih (fun x hx => h x (List.mem_cons_of_mem c hx))]

theorem scheme_no_colon {sch : List Char}
    (hsch : sch = "http".toList ∨ sch = "https".toList) : ∀ c ∈ sch, c ≠ ':' := by
  rcases hsch with h | h <;> subst h <;> decide

theorem scheme_lc {sch : List Char}
    (hsch : sch = "http".toList ∨ sch = "https".toList) : lcL sch = sch := by
  rcases hsch with h | h <;> subst h <;> decide

theorem scheme_no_ws {sch : List Char}
    (hsch : sch = "http".toList ∨ sch = "https".toList) : ∀ c ∈ sch, isJsWS c = false := by
  rcases hsch with h | h <;> subst h <;> decide

set_option maxHeartbeats 1000000 in
theorem parseURLChars_reparse {m : URLMC}
    (hsch : m.scheme = "http".toList ∨ m.scheme = "https".toList)
    (hhne : m.host ≠ []) (hhlc : lcL m.host = m.host)
    (hhc : ∀ c ∈ m.host, c ≠ '/' ∧ c ≠ '?' ∧ c ≠ '#' ∧ c ≠ ':' ∧ isJsWS c = false)
    (hph : m.pathname.head? = some '/')
    (hpc : ∀ c ∈ m.pathname, c ≠ '?' ∧ c ≠ '#' ∧ isJsWS c = false) :
    parseURLChars (m.origin ++ stripTrailSlash m.pathname) =
      some ⟨m.scheme, m.host,
        (if stripTrailSlash m.pathname = [] then '/' :: [] else stripTrailSlash m.pathname),
        []⟩ := by
  have hassoc : m.origin ++ stripTrailSlash m.pathname =
      m.scheme ++ (':' :: '/' :: '/' :: []) ++ (m.host ++ stripTrailSlash m.pathname) := by
    simp [URLMC.origin, List.append_assoc]
  rw [hassoc]
  unfold parseURLChars
  rw [breakOnSep_append (fun c hc => scheme_no_colon hsch c hc)]
  simp only
  rw [if_pos (by rw [scheme_lc hsch]; exact hsch)]
  have hsp : stripTrailSlash m.pathname = [] ∨
      (stripTrailSlash m.pathname).head? = some '/' := by
    cases hs : stripTrailSlash m.pathname with
    | nil => exact Or.inl rfl
    | cons c t =>
      right
      rw [← hs, stripTrailSlash_head? (by rw [hs]; exact List.cons_ne_nil c t)]
      exact hph
  have htw : (m.host ++ stripTrailSlash m.pathname).takeWhile
      (fun c => !(c == '/' || c == '?' || c == '#')) = m.host := by
    rw [List.takeWhile_append_of_pos (by
      intro a ha
      have := hhc a ha
      simp [this.1, this.2.1, this.2.2.1])]
    rcases hsp with hs | hs
    · rw [hs]
      simp
    · cases hs2 : stripTrailSlash m.pathname with
      | nil => simp
      | cons c t =>
        rw [hs2] at hs
        simp only [List.head?_cons, Option.some.injEq] at hs
        subst hs
        rw [List.takeWhile_cons_of_neg (by simp)]
        simp
  rw [htw]
  rw [if_neg (by simp [List.isEmpty_eq_false.mpr hhne])]
  rw [if_neg (by
    simp only [List.any_eq_true, not_exists, not_and]
    intro x hx h
    exact absurd (by simpa using h) (hhc x hx).2.2.2.1)]
  rw [List.drop_left]
  rcases hsp with hs | hs
  · rw [hs]
    simp [scheme_lc hsch, hhlc]
  · cases hs2 : stripTrailSlash m.pathname with
    | nil =>
      rw [hs2] at hs
      cases hs
    | cons c t =>
      rw [hs2] at hs
      simp only [List.head?_cons, Option.some.injEq] at hs
      subst hs
      dsimp only
      rw [if_pos (by simp)]
      have hpath : List.takeWhile (fun c => !(c == '?' || c == '#')) ('/' :: t) = '/' :: t := by
        apply takeWhile_eq_self_of_forall
        intro x hx
        have hxm : x ∈ m.pathname := mem_stripTrailSlash (hs2 ▸ hx)
        have := hpc x hxm
        simp [this.1, this.2.1]
      rw [hpath, List.drop_length]
      simp [scheme_lc hsch, hhlc, parseQuery]



set_option maxHeartbeats 1000000 in
theorem sanitize_fixed {m : URLMC}
    (hsch : m.scheme = "http".toList ∨ m.scheme = "https".toList)
    (hhne : m.host ≠ []) (hhlc : lcL m.host = m.host)
    (hhc : ∀ c ∈ m.host, c ≠ '/' ∧ c ≠ '?' ∧ c ≠ '#' ∧ c ≠ ':' ∧ isJsWS c = false)
    (hph : m.pathname.head? = some '/')
    (hpc : ∀ c ∈ m.pathname, c ≠ '?' ∧ c ≠ '#' ∧ isJsWS c = false) :
    sanitizeBaseUrl (String.mk (m.origin ++ stripTrailSlash m.pathname)) =
      String.mk (m.origin ++ stripTrailSlash m.pathname) := by
  have hyne : m.origin ++ stripTrailSlash m.pathname ≠ [] := by
    apply List.append_ne_nil_of_left_ne_nil
    simp only [URLMC.origin]
    apply List.append_ne_nil_of_left_ne_nil
    apply List.append_ne_nil_of_left_ne_nil
    rcases hsch with h | h <;> simp [h]
  have hws : ∀ c ∈ m.origin ++ stripTrailSlash m.pathname, isJsWS c = false := by
    intro c hc
    simp only [URLMC.origin, List.append_assoc, List.mem_append] at hc
    rcases hc with h | h | h | h
    · exact scheme_no_ws hsch c h
    · have : c = ':' ∨ c = '/' ∨ c = '/' := by simpa using h
      rcases this with rfl | rfl | rfl <;> decide
    · exact (hhc c h).2.2.2.2
    · exact (hpc c (mem_stripTrailSlash h)).2.2
  have hlast : (m.origin ++ stripTrailSlash m.pathname).getLast? ≠ some '/' := by
    rw [List.getLast?_append]
    cases hs : stripTrailSlash m.pathname with
    | nil =>
      simp only [List.getLast?_nil, Option.none_or]
      simp only [URLMC.origin, List.getLast?_append]
      cases hh : m.host.getLast? with
      | none => exact absurd (List.getLast?_eq_none_iff.mp hh) hhne
      | some x =>
        have hx : x ∈ m.host := List.mem_of_getLast?_eq_some hh
        simp only [Option.or_some]
        intro he
        injection he with he2
        exact (hhc x hx).1 he2
    | cons c t =>
      have : (c :: t).getLast? ≠ some '/' := by
        cases hg : (c :: t).getLast? with
        | none => simp at hg
        | some x =>
          have := stripTrailSlash_getLast? (l := m.pathname) (x := x) (by rw [hs, hg])
          intro he
          injection he with he2
          subst he2
          simp at this
      cases hg : (c :: t).getLast? with
      | none => simp at hg
      | some x =>
        rw [hg] at this
        simp only [Option.or_some]
        exact this
  have hstrip : stripTrailSlash (m.origin ++ stripTrailSlash m.pathname) =
      m.origin ++ stripTrailSlash m.pathname := stripTrailSlash_eq_self hlast
  show (if (String.mk (m.origin ++ stripTrailSlash m.pathname)).toList.isEmpty then "" else _) = _
  rw [if_neg (by simpa [List.isEmpty_iff] using hyne)]
  have hclean : stripTrailSlash (removeWS (trimWS
      (String.mk (m.origin ++ stripTrailSlash m.pathname)).toList)) =
      m.origin ++ stripTrailSlash m.pathname := by
    show stripTrailSlash (removeWS (trimWS (m.origin ++ stripTrailSlash m.pathname))) = _
    rw [trimWS_eq_self hws, removeWS_eq_self hws, hstrip]
  rw [hclean, parseURLChars_reparse hsch hhne hhlc hhc hph hpc]
  cases hs : stripTrailSlash m.pathname with
  | nil =>
    dsimp only
    simp [URLMC.origin, show stripTrailSlash ('/' :: []) = [] from rfl]
  | cons c t =>
    dsimp only
    rw [if_neg (List.cons_ne_nil c t)]
    simp only [URLMC.origin]
    congr 1
    rw [← hs, stripTrailSlash_idem]

theorem sanitizeBaseUrl_idem (x : String) :
    sanitizeBaseUrl (sanitizeBaseUrl x) = sanitizeBaseUrl x := by
  cases hx : x.toList.isEmpty with
  | true =>
    rw [show sanitizeBaseUrl x = "" by unfold sanitizeBaseUrl; rw [if_pos hx]]
    rfl
  | false =>
    cases hp : parseURLChars (stripTrailSlash (removeWS (trimWS x.toList))) with
    | none =>
      have hsx : sanitizeBaseUrl x = "" := by
        unfold sanitizeBaseUrl
        rw [if_neg (by rw [hx]; exact Bool.false_ne_true), hp]
      rw [hsx]
      rfl
    | some m =>
      have hsx : sanitizeBaseUrl x = String.mk (m.origin ++ stripTrailSlash m.pathname) := by
        unfold sanitizeBaseUrl
        rw [if_neg (by rw [hx]; exact Bool.false_ne_true), hp]
      have hl : ∀ c ∈ stripTrailSlash (removeWS (trimWS x.toList)), isJsWS c = false :=
        fun c hc => mem_removeWS_ws (l := trimWS x.toList) (mem_stripTrailSlash hc)
      obtain ⟨hsch, hhne, hhlc, hhc, hph, hpc⟩ := parseURLChars_inv hl hp
      rw [hsx]
      exact sanitize_fixed hsch hhne hhlc hhc hph hpc


/-! ## Supporting lemmas: the Redirect Cleaner -/

/-- For two lists that are not prefixes of each other, no string has both
as a prefix. -/
theorem not_prefix_of_prefix {p q s : List Char} (hp : p.isPrefixOf s = true)
    (h1 : p.isPrefixOf q = false) (h2 : q.isPrefixOf p = false) : q.isPrefixOf s = false := by
  have hps : p <+: s := List.isPrefixOf_iff_prefix.mp hp
  cases hq : q.isPrefixOf s with
  | false => rfl
  | true =>
    have hqs : q <+: s := List.isPrefixOf_iff_prefix.mp hq
    rcases List.prefix_or_prefix_of_prefix hps hqs with h | h
    · rw [List.isPrefixOf_iff_prefix.mpr h] at h1
      cases h1
    · rw [List.isPrefixOf_iff_prefix.mpr h] at h2
      cases h2

/-- If every pattern in the list fails to match, the cleaning loop yields
nothing. -/
theorem cleanLoop_none {u : URLMC} :
    ∀ {ps : List RedirectPattern}, (∀ p ∈ ps, patMatches u p = false) →
      cleanLoop u ps = none := by
  intro ps
  induction ps with
  | nil => intro _; rfl
  | cons p ps ih =>
    intro h
    unfold cleanLoop
    rw [if_neg (by simp [h p (List.mem_cons_self p ps)])]
    exact ih (fun q hq => h q (List.mem_cons_of_mem p hq))

/-- On a pattern list in which no two entries can match the same URL, the
source's fall-through loop coincides with first-match-wins semantics with
a truthiness test on the parameter value. -/
theorem cleanLoop_eq_find {u : URLMC} :
    ∀ {ps : List RedirectPattern},
      List.Pairwise (fun p q => ¬(patMatches u p = true ∧ patMatches u q = true)) ps →
      cleanLoop u ps =
        (match ps.find? (fun p => patMatches u p) with
          | none => none
          | some p =>
            match jsTruthyL (getParamC u p.param) with
            | some v => some (applyStrip p v)
            | none => none) := by
  intro ps
  induction ps with
  | nil => intro _; rfl
  | cons p ps ih =>
    intro hpw
    rw [List.pairwise_cons] at hpw
    cases hm : patMatches u p with
    | true =>
      unfold cleanLoop
      rw [if_pos hm, List.find?_cons_of_pos _ hm]
      show (match jsTruthyL (getParamC u p.param) with
            | some v => some (applyStrip p v)
            | none => cleanLoop u ps) =
          (match jsTruthyL (getParamC u p.param) with
            | some v => some (applyStrip p v)
            | none => none)
      cases hv : jsTruthyL (getParamC u p.param) with
      | some v => rfl
      | none =>
        have hall : ∀ q ∈ ps, patMatches u q = false := by
          intro q hq
          cases hmq : patMatches u q with
          | false => rfl
          | true => exact absurd ⟨hm, hmq⟩ (hpw.1 q hq)
        exact cleanLoop_none hall
    | false =>
      unfold cleanLoop
      rw [if_neg (by simp [hm]), List.find?_cons_of_neg _ (by simp [hm])]
      exact ih hpw.2

/-- The four shipped redirect patterns are mutually exclusive: their host
prefixes are pairwise incomparable, so no hostname matches two of them. -/
theorem REDIRECT_PATTERNS_exclusive (u : URLMC) :
    List.Pairwise (fun p q => ¬(patMatches u p = true ∧ patMatches u q = true))
      REDIRECT_PATTERNS := by
  have key : ∀ (p q : RedirectPattern),
      p.hostPrefix.toList.isPrefixOf q.hostPrefix.toList = false →
      q.hostPrefix.toList.isPrefixOf p.hostPrefix.toList = false →
      ¬(patMatches u p = true ∧ patMatches u q = true) := by
    intro p q h1 h2 hc
    obtain ⟨hp, hq⟩ := hc
    unfold patMatches at hp hq
    rw [Bool.and_eq_true] at hp hq
    have := not_prefix_of_prefix hp.1 h1 h2
    rw [hq.1] at this
    cases this
  unfold REDIRECT_PATTERNS
  refine List.Pairwise.cons ?_ (List.Pairwise.cons ?_ (List.Pairwise.cons ?_
    (List.pairwise_singleton _ _)))
  · intro q hq
    simp only [List.mem_cons, List.not_mem_nil, or_false] at hq
    rcases hq with rfl | rfl | rfl <;> exact key _ _ (by decide) (by decide)
  · intro q hq
    simp only [List.mem_cons, List.not_mem_nil, or_false] at hq
    rcases hq with rfl | rfl <;> exact key _ _ (by decide) (by decide)
  · intro q hq
    simp only [List.mem_cons, List.not_mem_nil, or_false] at hq
    rcases hq with rfl
    exact key _ _ (by decide) (by decide)

/-- Modelled from the spec (claim C2's wording): the Redirect Cleaner with
first-prefix-match-wins semantics in which a *present* query parameter is
always extracted.  Kept for comparison with the source's loop. -/
def cleanLinkSpecC2 (link : String) : String :=
  match parseURLChars link.toList with
  | none => link
  | some u =>
    match REDIRECT_PATTERNS.find? (fun p => patMatches u p) with
    | none => link
    | some p =>
      match getParamC u p.param with
      | none => link
      | some v => String.mk (applyStrip p v)

/-- The amended C2 reading: a present-but-*empty* parameter value is
treated like an absent one (JS truthiness), yielding the original input. -/
def cleanLinkSpecC2Amended (link : String) : String :=
  match parseURLChars link.toList with
  | none => link
  | some u =>
    match REDIRECT_PATTERNS.find? (fun p => patMatches u p) with
    | none => link
    | some p =>
      match getParamC u p.param with
      | none => link
      | some v => if v.isEmpty then link else String.mk (applyStrip p v)

theorem cleanRedirectLink_eq_amended (link : String) :
    cleanRedirectLink link = cleanLinkSpecC2Amended link := by
  unfold cleanRedirectLink cleanLinkSpecC2Amended
  cases hp : parseURLChars link.toList with
  | none => rfl
  | some u =>
    dsimp only
    rw [cleanLoop_eq_find (REDIRECT_PATTERNS_exclusive u)]
    cases hf : REDIRECT_PATTERNS.find? (fun p => patMatches u p) with
    | none => rfl
    | some p =>
      cases hv : getParamC u p.param with
      | none => simp [jsTruthyL, hv]
      | some v =>
        cases hve : v.isEmpty with
        | true =>
          have hnil : v = [] := List.isEmpty_iff.mp hve
          subst hnil
          simp [jsTruthyL, hv]
        | false =>
          have hne : v ≠ [] := List.isEmpty_eq_false.mp hve
          simp [jsTruthyL, hv, hne]


/-! ## Supporting lemmas: the Keyword Resolver -/

theorem splitOnChar_ne_nil (sep : Char) (l : List Char) : splitOnChar sep l ≠ [] := by
  cases l with
  | nil => simp [splitOnChar]
  | cons c cs =>
    unfold splitOnChar
    by_cases h : (c == sep) = true
    · rw [if_pos h]
      simp
    · rw [if_neg h]
      cases hs : splitOnChar sep cs with
      | nil => simp
      | cons s ss => simp

theorem splitOnChar_append_slash (l : List Char) :
    splitOnChar '/' (l ++ ['/']) = splitOnChar '/' l ++ [[]] := by
  induction l with
  | nil => rfl
  | cons c cs ih =>
    show splitOnChar '/' (c :: (cs ++ ['/'])) = splitOnChar '/' (c :: cs) ++ [[]]
    unfold splitOnChar
    by_cases h : (c == '/') = true
    · rw [if_pos h, if_pos h, ih]
      rfl
    · rw [if_neg h, if_neg h, ih]
      cases hs : splitOnChar '/' cs with
      | nil => exact absurd hs (splitOnChar_ne_nil '/' cs)
      | cons s ss => rfl

theorem splitOnChar_append_repl (l : List Char) (k : Nat) :
    splitOnChar '/' (l ++ List.replicate k '/') =
      splitOnChar '/' l ++ List.replicate k [] := by
  induction k generalizing l with
  | zero => simp
  | succ k ih =>
    rw [List.replicate_succ' k '/', ← List.append_assoc, splitOnChar_append_slash,
      ih l, List.replicate_succ' k ([] : List Char), List.append_assoc]

theorem filter_nonempty_append_repl (xs : List (List Char)) (k : Nat) :
    (xs ++ List.replicate k []).filter (fun s => !s.isEmpty) =
      xs.filter (fun s => !s.isEmpty) := by
  rw [List.filter_append]
  have hrep : (List.replicate k ([] : List Char)).filter (fun s => !s.isEmpty) = [] := by
    apply List.filter_eq_nil_iff.mpr
    intro a ha
    rw [List.eq_of_mem_replicate ha]
    simp
  rw [hrep, List.append_nil]

theorem getLast?_filter_of_pos {α : Type} (p : α → Bool) :
    ∀ {xs : List α} {x : α}, xs.getLast? = some x → p x = true →
      (xs.filter p).getLast? = some x := by
  intro xs
  induction xs with
  | nil => intro x h _; cases h
  | cons a t ih =>
    intro x h hx
    cases ht : t with
    | nil =>
      subst ht
      simp only [List.getLast?_singleton, Option.some.injEq] at h
      subst h
      rw [List.filter_cons_of_pos hx]
      simp
    | cons b t2 =>
      subst ht
      rw [List.getLast?_cons_cons] at h
      have hrec := ih h hx
      have hxmem : x ∈ (b :: t2).filter p :=
        List.mem_filter.mpr ⟨List.mem_of_getLast?_eq_some h, hx⟩
      by_cases hpa : p a = true
      · rw [List.filter_cons_of_pos hpa]
        cases hf : (b :: t2).filter p with
        | nil => exact absurd (hf ▸ hxmem) (List.not_mem_nil x)
        | cons y ys =>
          rw [hf] at hrec
          rw [List.getLast?_cons_cons]
          exact hrec
      · rw [List.filter_cons_of_neg (by simpa using hpa)]
        exact hrec

theorem splitOnChar_getLast?_ne_nil :
    ∀ {m : List Char}, m ≠ [] → m.getLast? ≠ some '/' →
      ∃ seg, (splitOnChar '/' m).getLast? = some seg ∧ seg ≠ [] := by
  intro m
  induction m with
  | nil => intro h _; exact absurd rfl h
  | cons c t ih =>
    intro _ hlast
    cases ht : t with
    | nil =>
      subst ht
      have hcn : c ≠ '/' := by
        intro hc
        apply hlast
        rw [hc]
        rfl
      refine ⟨[c], ?_, by simp⟩
      show (splitOnChar '/' [c]).getLast? = some [c]
      unfold splitOnChar
      rw [if_neg (by simp [hcn])]
      rfl
    | cons b t2 =>
      subst ht
      have hlast2 : (b :: t2).getLast? ≠ some '/' := by
        rw [List.getLast?_cons_cons] at hlast
        exact hlast
      obtain ⟨seg, hseg, hsegne⟩ := ih (by simp) hlast2
      by_cases hc : (c == '/') = true
      · refine ⟨seg, ?_, hsegne⟩
        show (splitOnChar '/' (c :: b :: t2)).getLast? = some seg
        unfold splitOnChar
        rw [if_pos hc]
        cases hs : splitOnChar '/' (b :: t2) with
        | nil => exact absurd hs (splitOnChar_ne_nil '/' (b :: t2))
        | cons s ss =>
          rw [hs] at hseg
          rw [List.getLast?_cons_cons]
          exact hseg
      · show ∃ seg2, (splitOnChar '/' (c :: b :: t2)).getLast? = some seg2 ∧ seg2 ≠ []
        unfold splitOnChar
        rw [if_neg hc]
        cases hs : splitOnChar '/' (b :: t2) with
        | nil => exact absurd hs (splitOnChar_ne_nil '/' (b :: t2))
        | cons s ss =>
          rw [hs] at hseg
          cases hss : ss with
          | nil =>
            refine ⟨c :: s, by simp, by simp⟩
          | cons s2 ss2 =>
            subst hss
            rw [List.getLast?_cons_cons] at hseg
            refine ⟨seg, ?_, hsegne⟩
            rw [List.getLast?_cons_cons]
            exact hseg

/-- Modelled from the spec (claim C3's wording): "the last non-empty path
segment". -/
def lastNonEmptySegment (p : List Char) : List Char :=
  (((splitOnChar '/' p).filter (fun s => !s.isEmpty)).getLast?).getD []

/-- The source's `replace(/\/+$/, "").split("/").pop() || ""` computes
exactly the last non-empty path segment (or `""` when there is none). -/
theorem lastSegmentCode_eq (p : List Char) : lastSegmentCode p = lastNonEmptySegment p := by
  obtain ⟨k, hk⟩ := stripTrailSlash_decomp p
  unfold lastNonEmptySegment
  conv_rhs => rw [hk]
  rw [splitOnChar_append_repl, filter_nonempty_append_repl]
  by_cases hsp : stripTrailSlash p = []
  · rw [lastSegmentCode, hsp]
    simp [splitOnChar]
  · have hlast : (stripTrailSlash p).getLast? ≠ some '/' := by
      intro hh
      have := stripTrailSlash_getLast? hh
      simp at this
    obtain ⟨seg, hseg, hsegne⟩ := splitOnChar_getLast?_ne_nil hsp hlast
    rw [lastSegmentCode, hseg, getLast?_filter_of_pos _ hseg (by simp [hsegne])]

/-- Modelled from the spec (claim C3, amended by the trim step the source
performs): the Keyword Resolver case analysis as the spec words it, with
"last non-empty path segment" computed directly. -/
def extractKeywordSpecC3 (base s : String) : String :=
  if s.toList.isEmpty then ""
  else
    let t := String.mk (trimWS s.toList)
    match parseURLChars t.toList with
    | none => t
    | some u =>
      if base ≠ "" then
        match parseURLChars base.toList with
        | some b => if u.origin = b.origin then String.mk (lastNonEmptySegment u.pathname) else t
        | none => t
      else t

theorem extractKeyword_eq_spec (base s : String) :
    extractKeyword base s = extractKeywordSpecC3 base s := by
  unfold extractKeyword extractKeywordSpecC3
  by_cases hs : s.toList.isEmpty
  · rw [if_pos hs, if_pos hs]
  · rw [if_neg hs, if_neg hs]
    dsimp only
    cases hp : parseURLChars (String.mk (trimWS s.toList)).toList with
    | none => rfl
    | some u =>
      dsimp only
      by_cases hb : base = ""
      · rw [if_pos hb, if_neg (by simp [hb])]
      · rw [if_neg hb, if_pos hb]
        cases hpb : parseURLChars base.toList with
        | none => rfl
        | some b =>
          dsimp only
          by_cases ho : u.origin = b.origin
          · rw [if_pos ho, if_pos ho, lastSegmentCode_eq]
          · rw [if_neg ho, if_neg ho]


/-! ## Claim theorems -/

/-- C1: whenever the shorten response body parses as JSON with a message
containing "already exists" (case-insensitively), `apiShorten` returns
`{ok: true, already: true}` for every HTTP status, recovering the short
URL first through the parenthetical `(short URL: ...)` regex on the
message and otherwise through `extractShort`'s field-shape fallbacks
(`json.shorturl`, `json.url.shorturl`, `json.link.shorturl`,
`base + "/" + json.keyword`). -/
theorem claim_C1_shorten_already_exists (base : String) (res : HttpRes) (text : String)
    (j : YJson) (s : String) (hmsg : j.message = some s)
    (htest : alreadyExistsTest s = true) :
    shortenNormalize base res text (some j) =
      .ok ⟨(match parenExtract s.toList with
            | some cap => some (String.mk cap)
            | none => extractShort (some j) base), true⟩ := by
  have hsne : s ≠ "" := by
    intro h
    subst h
    exact absurd htest (by decide)
  have hOr : jsOrEmpty j.message = s := by
    rw [hmsg]
    unfold jsOrEmpty jsTruthyStr
    dsimp only
    rw [if_neg hsne]
    rfl
  unfold shortenNormalize
  dsimp only
  rw [hOr, if_pos htest, hmsg]
  rfl

/-- Witness for C1 at the spec's own example, at HTTP status 500. -/
theorem claim_C1_witness :
    shortenNormalize "https://go.example" ⟨500⟩ ""
      (some { message := some "short URL already exists (short URL: https://go.example/xyz)" }) =
      .ok ⟨some "https://go.example/xyz", true⟩ := by
  have h := claim_C1_shorten_already_exists "https://go.example" ⟨500⟩ ""
    { message := some "short URL already exists (short URL: https://go.example/xyz)" }
    "short URL already exists (short URL: https://go.example/xyz)" rfl (by decide)
  rw [h]
  decide

/-- C2 counterexample: on `https://www.google.com/url?url=` the first
pattern matches and the parameter is present (with empty value), so the
claim's reading returns the empty extracted value, but the source's loop
treats the falsy value as a non-match and returns the input unchanged. -/
theorem claim_C2_counterexample :
    cleanLinkSpecC2 "https://www.google.com/url?url=" = "" ∧
    cleanRedirectLink "https://www.google.com/url?url=" = "https://www.google.com/url?url=" ∧
    ("https://www.google.com/url?url=" : String) ≠ "" := by
  refine ⟨by decide, by decide, by decide⟩

/-- C2 (amended): the Redirect Cleaner equals first-prefix-match-wins
extraction in which a present but *empty* parameter value is treated as
absent; in all other respects the claim stands (patterns in table order,
optional value-prefix stripping, original input on no match, absent
parameter or parse failure, and never more than one pattern applied). -/
theorem claim_C2_redirect_cleaner (link : String) :
    cleanRedirectLink link = cleanLinkSpecC2Amended link :=
  cleanRedirectLink_eq_amended link

/-- C3 counterexample: `" abc123"` does not parse as a URL, so the claim
requires it back unchanged, but the source returns it trimmed. -/
theorem claim_C3_counterexample :
    parseURLChars " abc123".toList = none ∧
    extractKeyword "https://go.example" " abc123" = "abc123" ∧
    (" abc123" : String) ≠ "abc123" := by
  refine ⟨by decide, by decide, by decide⟩

/-- C3 (amended): the Keyword Resolver first *trims* the candidate; the
claim's case analysis then holds for the trimmed candidate: same-origin
URLs yield the last non-empty path segment, foreign-origin URLs and
non-URLs yield the trimmed candidate, and empty input yields `""`. -/
theorem claim_C3_keyword_resolver (base s : String) :
    extractKeyword base s = extractKeywordSpecC3 base s :=
  extractKeyword_eq_spec base s

/-- C4: a delete succeeds exactly when the HTTP response is ok and the
parsed body signals success through `status: "success"`, a
`success...deleted` message, or `statusCode: 200`; otherwise it fails
with the `Delete failed:` error carrying the HTTP status and the body's
message or error field. -/
theorem claim_C4_delete (res : HttpRes) (json : Option YJson) :
    (deleteNormalize res json = .ok () ↔
      (res.ok = true ∧ ∃ j, json = some j ∧
        (j.status = some "success" ∨ successDeletedTest (jsOrEmpty j.message) = true ∨
          j.statusCode = some 200))) ∧
    (deleteNormalize res json = .ok () ∨
      deleteNormalize res json = .error (deleteFailMsg res json)) := by
  constructor
  · unfold deleteNormalize
    by_cases h : (res.ok && deleteIsSuccess json) = true
    · rw [if_pos h]
      rw [Bool.and_eq_true] at h
      simp only [true_iff]
      refine ⟨h.1, ?_⟩
      have h2 := h.2
      unfold deleteIsSuccess at h2
      cases json with
      | none => cases h2
      | some j =>
        refine ⟨j, rfl, ?_⟩
        simp only [Bool.or_eq_true, beq_iff_eq, decide_eq_true_eq] at h2
        rcases h2 with (h3 | h3) | h3
        · left
          simpa using h3
        · right
          left
          exact h3
        · right
          right
          simpa using h3
    · rw [if_neg h]
      constructor
      · intro hh
        cases hh
      · rintro ⟨hok, j, rfl, hcase⟩
        exfalso
        apply h
        rw [Bool.and_eq_true]
        refine ⟨hok, ?_⟩
        unfold deleteIsSuccess
        rcases hcase with h3 | h3 | h3
        · simp [h3]
        · simp [h3]
        · simp [h3]
  · unfold deleteNormalize
    by_cases h : (res.ok && deleteIsSuccess json) = true
    · rw [if_pos h]
      exact Or.inl rfl
    · rw [if_neg h]
      exact Or.inr rfl

/-- C5: single-link stats normalization — HTTP 404 yields the not-found
error regardless of body, any other non-ok status yields a generic HTTP
error whose body snippet is at most 100 characters, and an ok response
returns the parsed JSON unchanged (even when it is `null`). -/
theorem claim_C5_single_link_stats :
    (∀ text json, statsNormalize ⟨404⟩ text json = .error popupErrorStatsNotFound) ∧
    (∀ res text json, res.ok = false → res.status ≠ 404 →
      statsNormalize res text json =
        .error ("HTTP " ++ toString res.status ++
          (if text = "" then "" else ": " ++ String.mk (text.toList.take 100))) ∧
        (text.toList.take 100).length ≤ 100) ∧
    (∀ res text json, res.ok = true → statsNormalize res text json = .ok json) := by
  refine ⟨?_, ?_, ?_⟩
  · intro text json
    unfold statsNormalize
    rw [if_pos (by decide), if_pos rfl]
  · intro res text json hok h404
    constructor
    · unfold statsNormalize
      rw [if_pos (by simp [hok]), if_neg h404]
    · exact List.length_take_le 100 text.toList
  · intro res text json hok
    unfold statsNormalize
    rw [if_neg (by simp [hok])]

/-- Witness for C5: 404 with an arbitrary body, a 500 with a body snippet,
and an ok response carrying `null` JSON. -/
theorem claim_C5_witness :
    statsNormalize ⟨404⟩ "any body" (some {}) = .error popupErrorStatsNotFound ∧
    statsNormalize ⟨500⟩ "oops" none = .error "HTTP 500: oops" ∧
    statsNormalize ⟨200⟩ "" none = .ok none := by
  refine ⟨claim_C5_single_link_stats.1 "any body" (some {}), ?_,
    claim_C5_single_link_stats.2.2 ⟨200⟩ "" none rfl⟩
  have h := (claim_C5_single_link_stats.2.1 ⟨500⟩ "oops" none (by decide) (by decide)).1
  rw [h]
  decide

/-- The catch-branch of the router, with the conditional pulled inside the
failure envelope. -/
theorem routeFailure_ite (e : String) :
    (if keywordExistsTest e = true then Envelope.failure errorKeywordExists
      else Envelope.failure e) =
    Envelope.failure (if keywordExistsTest e = true then errorKeywordExists else e) := by
  by_cases hk : keywordExistsTest e = true
  · rw [if_pos hk, if_pos hk]
  · rw [if_neg hk, if_neg hk]

/-- C6: the Action Router returns an envelope for every input (it is a
total function, so it cannot throw); an unknown message kind yields the
fixed unknown-type failure envelope, and an exception escaping any of the
dispatched pipelines is rewritten to the stable keyword-exists message
when it matches `/keyword.*already exists/i` and is passed through as the
reason otherwise. -/
theorem claim_C6_router :
    (∀ t hc hs hst hd hdb, t ≠ "CHECK_CONNECTION" → t ≠ "SHORTEN_URL" → t ≠ "GET_STATS" →
      t ≠ "DELETE_SHORTURL" → t ≠ "GET_DB_STATS" →
      routeMessage t hc hs hst hd hdb = .failure "Unknown message type") ∧
    (∀ hc hst hd hdb e, routeMessage "SHORTEN_URL" hc (.error e) hst hd hdb =
      .failure (if keywordExistsTest e then errorKeywordExists else e)) ∧
    (∀ hc hs hd hdb e, routeMessage "GET_STATS" hc hs (.error e) hd hdb =
      .failure (if keywordExistsTest e then errorKeywordExists else e)) ∧
    (∀ hc hs hst hdb e, routeMessage "DELETE_SHORTURL" hc hs hst (.error e) hdb =
      .failure (if keywordExistsTest e then errorKeywordExists else e)) ∧
    (∀ hc hs hst hd e, routeMessage "GET_DB_STATS" hc hs hst hd (.error e) =
      .failure (if keywordExistsTest e then errorKeywordExists else e)) := by
  refine ⟨?_, ?_, ?_, ?_, ?_⟩
  · intro t hc hs hst hd hdb h1 h2 h3 h4 h5
    unfold routeMessage
    rw [if_neg h1, if_neg h2, if_neg h3, if_neg h4, if_neg h5]
  · intro hc hst hd hdb e
    unfold routeMessage
    rw [if_neg (by decide), if_pos rfl]
    exact routeFailure_ite e
  · intro hc hs hd hdb e
    unfold routeMessage
    rw [if_neg (by decide), if_neg (by decide), if_pos rfl]
    exact routeFailure_ite e
  · intro hc hs hst hdb e
    unfold routeMessage
    rw [if_neg (by decide), if_neg (by decide), if_neg (by decide), if_pos rfl]
    exact routeFailure_ite e
  · intro hc hs hst hd e
    unfold routeMessage
    rw [if_neg (by decide), if_neg (by decide), if_neg (by decide), if_neg (by decide),
      if_pos rfl]
    exact routeFailure_ite e

/-- Witness for C6: an unknown kind and a remote keyword-exists message. -/
theorem claim_C6_witness :
    routeMessage "bogus" (.fail "x") (.error "e") (.error "e") (.error "e") (.error "e") =
      .failure "Unknown message type" ∧
    routeMessage "SHORTEN_URL" (.fail "x") (.error "The keyword abc already exists")
      (.error "e") (.error "e") (.error "e") = .failure errorKeywordExists := by
  constructor
  · exact claim_C6_router.1 "bogus" (.fail "x") (.error "e") (.error "e") (.error "e")
      (.error "e") (by decide) (by decide) (by decide) (by decide) (by decide)
  · have h := claim_C6_router.2.1 (.fail "x") (.error "e") (.error "e") (.error "e")
      "The keyword abc already exists"
    rw [h]
    decide

/-- C7: before any network request, `yourlsFetch` checks host permission
for the base URL's origin; when it is not held, the call fails with the
fixed permission error and the list of issued network requests is empty
(and the model contains no permission-request effect at all). -/
theorem claim_C7_permission_gate (perms : String → Bool)
    (net : FetchCall → Except String (HttpRes × String)) (jparse : String → Option YJson)
    (baseUrl : String) (payload : List (String × String)) (m : URLMC)
    (hparse : parseURLChars baseUrl.toList = some m)
    (hperm : perms (String.mk m.origin ++ "/*") = false) :
    yourlsFetch perms net jparse baseUrl payload =
      (.error "Host permission was not granted.", []) := by
  unfold yourlsFetch
  rw [hparse]
  dsimp only
  rw [hperm]
  rfl

/-- Witness for C7: a denied permission oracle with a live transport. -/
theorem claim_C7_witness :
    yourlsFetch (fun _ => false) (fun _ => .ok (⟨200⟩, "ok")) (fun _ => none)
      "https://go.example" [("action", "stats")] =
      (.error "Host permission was not granted.", []) :=
  claim_C7_permission_gate (fun _ => false) (fun _ => .ok (⟨200⟩, "ok")) (fun _ => none)
    "https://go.example" [("action", "stats")]
    ⟨"https".toList, "go.example".toList, ['/'], []⟩ (by decide) rfl

/-- C8: the Connectivity Check returns the fixed no-settings failure with
no network call when the sanitized base URL or the token is empty, and it
never propagates an exception: a transport-level error surfaces as the
failure reason. -/
theorem claim_C8_connectivity_check :
    (∀ perms net jparse st, (sanitizeBaseUrl st.yourlsUrl = "" ∨ st.apiSignature = "") →
      apiCheckM perms net jparse st = (.fail errorNoSettings, [])) ∧
    (∀ perms net jparse st e,
      ¬(sanitizeBaseUrl st.yourlsUrl = "" ∨ st.apiSignature = "") →
      (yourlsFetch perms net jparse (sanitizeBaseUrl st.yourlsUrl)
        [("action", "stats"), ("format", "json"), ("signature", st.apiSignature)]).1 =
          .error e →
      (apiCheckM perms net jparse st).1 = .fail e) := by
  constructor
  · intro perms net jparse st hguard
    unfold apiCheckM
    rw [if_pos hguard]
  · intro perms net jparse st e hguard hfetch
    unfold apiCheckM
    rw [if_neg hguard]
    cases hf : yourlsFetch perms net jparse (sanitizeBaseUrl st.yourlsUrl)
        [("action", "stats"), ("format", "json"), ("signature", st.apiSignature)] with
    | mk r calls =>
      rw [hf] at hfetch
      dsimp only at hfetch
      subst hfetch
      rfl

/-- Witness for C8: empty settings produce the guard failure with zero
network calls; a throwing transport's message becomes the reason. -/
theorem claim_C8_witness :
    apiCheckM (fun _ => true) (fun _ => .ok (⟨200⟩, "")) (fun _ => none)
      ⟨"", "", true⟩ = (.fail errorNoSettings, []) ∧
    (apiCheckM (fun _ => true) (fun _ => .error "network down") (fun _ => none)
      ⟨"https://go.example", "sig", true⟩).1 = .fail "network down" := by
  constructor
  · exact claim_C8_connectivity_check.1 (fun _ => true) (fun _ => .ok (⟨200⟩, ""))
      (fun _ => none) ⟨"", "", true⟩ (by decide)
  · exact claim_C8_connectivity_check.2 (fun _ => true) (fun _ => .error "network down")
      (fun _ => none) ⟨"https://go.example", "sig", true⟩ "network down" (by decide) (by decide)

/-- C9: `sanitizeBaseUrl` is idempotent on every input string, and every
input whose cleaned form fails URL parsing yields the empty string (the
parse failure is caught, never thrown). -/
theorem claim_C9_sanitize_idempotent :
    (∀ x : String, sanitizeBaseUrl (sanitizeBaseUrl x) = sanitizeBaseUrl x) ∧
    (∀ x : String, parseURLChars (stripTrailSlash (removeWS (trimWS x.toList))) = none →
      sanitizeBaseUrl x = "") := by
  refine ⟨sanitizeBaseUrl_idem, ?_⟩
  intro x hp
  unfold sanitizeBaseUrl
  by_cases hx : x.toList.isEmpty
  · rw [if_pos hx]
  · rw [if_neg hx, hp]

/-- Witness for C9: a non-URL input parses to nothing and sanitizes to
the empty string. -/
theorem claim_C9_witness :
    parseURLChars (stripTrailSlash (removeWS (trimWS "not a url".toList))) = none ∧
    sanitizeBaseUrl "not a url" = "" :=
  ⟨by decide, claim_C9_sanitize_idempotent.2 "not a url" (by decide)⟩

/-- C10 counterexample: a Delete invocation with empty base *and* an empty
resolved keyword fails on the keyword guard, with the enter-keyword
message rather than a URL-construction error, so the claim's universal
statement over Delete invocations fails. -/
theorem claim_C10_counterexample :
    apiDeleteM (fun _ => true) (fun _ => .ok (⟨200⟩, "")) (fun _ => none)
      ⟨"", "sig", true⟩ "" = (.error errorEnterKeywordToDelete, []) ∧
    errorEnterKeywordToDelete ≠ urlCtorErrorMsg "" := by
  refine ⟨by decide, by decide⟩

/-- C10 (amended): only Shorten and the Connectivity Check guard missing
settings.  With an empty sanitized base URL, GetDbStats and GetLinkStats
always reach the HTTP client — as does Delete whenever its resolved
keyword is non-empty — where URL construction from the empty base throws,
so the caller sees the raw URL-construction message, which differs from
the fixed no-settings message; a Delete whose resolved keyword is empty
instead fails earlier with the enter-keyword message. -/
theorem claim_C10_no_guard :
    (∀ perms net jparse st, sanitizeBaseUrl st.yourlsUrl = "" →
      apiDbStatsM perms net jparse st = (.error (urlCtorErrorMsg ""), []) ∧
      (∀ s, apiStatsM perms net jparse st s = (.error (urlCtorErrorMsg ""), [])) ∧
      (∀ s, extractKeyword "" s ≠ "" →
        apiDeleteM perms net jparse st s = (.error (urlCtorErrorMsg ""), []))) ∧
    (∀ perms net jparse st longUrl kw title, sanitizeBaseUrl st.yourlsUrl = "" →
      apiShortenM perms net jparse st longUrl kw title = (.error errorNoSettings, [])) ∧
    (∀ perms net jparse st, sanitizeBaseUrl st.yourlsUrl = "" →
      apiCheckM perms net jparse st = (.fail errorNoSettings, [])) ∧
    urlCtorErrorMsg "" ≠ errorNoSettings := by
  have hfetch : ∀ perms net jparse payload,
      yourlsFetch perms net jparse "" payload = (.error (urlCtorErrorMsg ""), []) := by
    intro perms net jparse payload
    rfl
  refine ⟨?_, ?_, ?_, by decide⟩
  · intro perms net jparse st hbase
    refine ⟨?_, ?_, ?_⟩
    · unfold apiDbStatsM
      rw [hbase]
      dsimp only
      rw [hfetch]
    · intro s
      unfold apiStatsM
      rw [hbase]
      dsimp only
      rw [hfetch]
    · intro s hkw
      unfold apiDeleteM
      rw [hbase]
      dsimp only
      rw [if_neg hkw, hfetch]
  · intro perms net jparse st longUrl kw title hbase
    unfold apiShortenM
    rw [if_pos (Or.inl hbase)]
  · intro perms net jparse st hbase
    unfold apiCheckM
    rw [if_pos (Or.inl hbase)]

/-- Witness for C10: empty settings drive each operation to its stated
error. -/
theorem claim_C10_witness :
    apiDbStatsM (fun _ => true) (fun _ => .ok (⟨200⟩, "")) (fun _ => none)
      ⟨"", "sig", true⟩ = (.error (urlCtorErrorMsg ""), []) ∧
    apiDeleteM (fun _ => true) (fun _ => .ok (⟨200⟩, "")) (fun _ => none)
      ⟨"", "sig", true⟩ "abc" = (.error (urlCtorErrorMsg ""), []) := by
  have h := claim_C10_no_guard.1 (fun _ => true) (fun _ => .ok (⟨200⟩, ""))
    (fun _ => none) ⟨"", "sig", true⟩ (by decide)
  exact ⟨h.1, h.2.2 "abc" (by decide)⟩

end Kurl
